import Mathlib

/-!
Verification of the `protos` RPC schema (src/index.js) against its
specification.  The repository itself ships only declarative schema data:
a single RPC method descriptor (`getProtos`) and a `types` table of enum,
struct and alias definitions.  The type-registry / resolver / argument
checker / codec that consumes this schema is described by the
specification but is not part of the repository, so those operations are
modelled here from the specification's words, and the schema data is
transcribed literally from `src/index.js`.
-/

namespace Protos

/-- A reference to a type (spec §3, §9): a primitive name, a named user
type, a parametrized generic such as `Vec<T>` / `Option<T>`, or a tuple. -/
inductive TypeRef where
  | prim : String → TypeRef
  | named : String → TypeRef
  | generic : String → List TypeRef → TypeRef
  | tuple : List TypeRef → TypeRef

/-- The fixed primitive vocabulary (spec §2). -/
def primitives : List String := ["bool", "u32", "u16", "String", "Hash", "AccountId"]

def isIdentChar (c : Char) : Bool := c.isAlpha || c.isDigit || c == '_'

def skipWs : List Char → List Char
  | c :: cs => if c == ' ' then skipWs cs else c :: cs
  | [] => []

def takeIdent : List Char → (List Char × List Char)
  | c :: cs =>
    if isIdentChar c then
      let (i, r) := takeIdent (cs)
      (c :: i, r)
    else ([], c :: cs)
  | [] => ([], [])

mutual

/-- Modelled from the spec: recursive-descent parsing of the textual
type-reference grammar (spec §4.1); the parser itself is not in the
repository.  `TypeRef := Ident ('<' TypeRef (',' TypeRef)* '>')? | '(' ... ')'`. -/
def parseRef : Nat → List Char → Option (TypeRef × List Char)
  | 0, _ => none
  | fuel + 1, cs =>
    match skipWs cs with
    | '(' :: rest =>
      match parseArgs fuel rest ')' with
      | some (ts, r) => some (.tuple ts, r)
      | none => none
    | cs1 =>
      match takeIdent cs1 with
      | ([], _) => none
      | (id, rest) =>
        let name := String.mk id
        match skipWs rest with
        | '<' :: r2 =>
          match parseArgs fuel r2 '>' with
          | some (ts, r3) => some (.generic name ts, r3)
          | none => none
        | r2 =>
          if name ∈ primitives then some (.prim name, r2) else some (.named name, r2)
termination_by structural fuel => fuel

def parseArgs : Nat → List Char → Char → Option (List TypeRef × List Char)
  | 0, _, _ => none
  | fuel + 1, cs, close =>
    match parseRef fuel cs with
    | none => none
    | some (t, rest) =>
      match skipWs rest with
      | ',' :: r2 =>
        match parseArgs fuel r2 close with
        | some (ts, r3) => some (t :: ts, r3)
        | none => none
      | c :: r2 => if c == close then some ([t], r2) else none
      | [] => none
termination_by structural fuel => fuel

end

/-- Parse a full type-reference string; fails unless the whole string is
consumed. -/
def parseTypeRef (s : String) : Option TypeRef :=
  match parseRef (s.length + 1) s.data with
  | some (t, rest) => if (skipWs rest).isEmpty then some t else none
  | none => none

/-- A named type definition as it appears under the schema's `types` key
(spec §6): a simple enum `{_enum: [...]}`, a tagged enum
`{_enum: {variant: TypeRef-string}}`, a struct (field → TypeRef-string),
or a bare TypeRef-string alias. -/
inductive TypeDef where
  | enumSimple : List String → TypeDef
  | enumTagged : List (String × String) → TypeDef
  | structDef : List (String × String) → TypeDef
  | alias : String → TypeDef
deriving DecidableEq

/-- One RPC parameter descriptor (spec §3). -/
structure ParamDescriptor where
  name : String
  type : String
  isOptional : Bool
deriving DecidableEq

/-- One RPC method descriptor (spec §3): description, return type, and
ordered parameter list. -/
structure MethodDescriptor where
  description : String
  type : String
  params : List ParamDescriptor
deriving DecidableEq

/-- The registry owning all named type and method definitions (spec §3). -/
structure Registry where
  types : List (String × TypeDef)
  methods : List (String × MethodDescriptor)
deriving DecidableEq

/-- The error kinds of spec §7, plus `Exhausted`, an internal marker for
the resolver's recursion budget; `resolveName_no_exhaustion` proves the
budget handed out by `resolve` is never exceeded, so `Exhausted` never
escapes to a caller. -/
inductive RegErr where
  | DuplicateType : String → RegErr
  | UnknownType : String → RegErr
  | CyclicType : String → RegErr
  | UnknownMethod : String → RegErr
  | ArityMismatch : String → Nat → Nat → Nat → RegErr
  | ShapeMismatch : RegErr
  | Exhausted : RegErr
deriving DecidableEq

/-- A fully expanded type shape (spec §4.1): primitives are terminal
leaves, named enums/structs carry their resolved definition, generics and
tuples are structural nodes wrapping the resolved inner types. -/
inductive ResolvedType where
  | prim : String → ResolvedType
  | enumSimple : String → List String → ResolvedType
  | enumTagged : String → List (String × ResolvedType) → ResolvedType
  | structType : String → List (String × ResolvedType) → ResolvedType
  | generic : String → List ResolvedType → ResolvedType
  | tuple : List ResolvedType → ResolvedType

def lookupType (r : Registry) (name : String) : Option TypeDef :=
  (r.types.find? (fun p => p.1 == name)).map (·.2)

def lookupMethod (r : Registry) (name : String) : Option MethodDescriptor :=
  (r.methods.find? (fun p => p.1 == name)).map (·.2)

/-- Modelled from the spec: `define(name, definition)` (spec §4.1), absent
from the repository.  Registers a definition under `name`; fails with
`DuplicateType` if `name` is already registered with a conflicting
definition; re-registration with an identical definition is a no-op. -/
def define (r : Registry) (name : String) (d : TypeDef) : Except RegErr Registry :=
  match lookupType r name with
  | some d0 => if d0 = d then .ok r else .error (.DuplicateType name)
  | none => .ok { r with types := r.types ++ [(name, d)] }

/-- Register a list of (name, definition) pairs in order via `define`. -/
def defineAll (r : Registry) : List (String × TypeDef) → Except RegErr Registry
  | [] => .ok r
  | (n, d) :: rest =>
    match define r n d with
    | .ok r1 => defineAll r1 rest
    | .error e => .error e

mutual

/-- Resolve a parsed type reference against a continuation `h` that
resolves named references: primitives are terminal, named references go
through `h`, generics and tuples resolve their components structurally. -/
def resolveRefH (h : String → Except RegErr ResolvedType) :
    TypeRef → Except RegErr ResolvedType
  | .prim p => .ok (.prim p)
  | .named n => h n
  | .generic g args =>
    match resolveRefsH h args with
    | .ok rs => .ok (.generic g rs)
    | .error e => .error e
  | .tuple es =>
    match resolveRefsH h es with
    | .ok rs => .ok (.tuple rs)
    | .error e => .error e
termination_by structural ref => ref

def resolveRefsH (h : String → Except RegErr ResolvedType) :
    List TypeRef → Except RegErr (List ResolvedType)
  | [] => .ok []
  | t :: ts =>
    match resolveRefH h t with
    | .error e => .error e
    | .ok rt =>
      match resolveRefsH h ts with
      | .error e => .error e
      | .ok rs => .ok (rt :: rs)
termination_by structural l => l

end

/-- Resolve a stored type-reference string: parse it, then resolve the
parsed reference; an unparseable string is a dangling reference and
fails with `UnknownType`. -/
def resolveStrH (h : String → Except RegErr ResolvedType) (s : String) :
    Except RegErr ResolvedType :=
  match parseTypeRef s with
  | none => .error (.UnknownType s)
  | some ref => resolveRefH h ref

/-- Resolve each (label, TypeRef-string) pair of a struct or tagged enum,
in declared order. -/
def resolveFieldsH (h : String → Except RegErr ResolvedType) :
    List (String × String) → Except RegErr (List (String × ResolvedType))
  | [] => .ok []
  | (label, s) :: rest =>
    match resolveStrH h s with
    | .error e => .error e
    | .ok rt =>
      match resolveFieldsH h rest with
      | .error e => .error e
      | .ok rs => .ok ((label, rt) :: rs)

/-- Resolve a stored definition: enums and structs resolve each payload /
field reference; an alias resolves through its target reference. -/
def resolveDefH (h : String → Except RegErr ResolvedType) (name : String) :
    TypeDef → Except RegErr ResolvedType
  | .enumSimple vs => .ok (.enumSimple name vs)
  | .enumTagged ps =>
    match resolveFieldsH h ps with
    | .ok rs => .ok (.enumTagged name rs)
    | .error e => .error e
  | .structDef fs =>
    match resolveFieldsH h fs with
    | .ok rs => .ok (.structType name rs)
    | .error e => .error e
  | .alias s => resolveStrH h s

/-- Modelled from the spec: resolution of a registered name (spec §4.1),
absent from the repository.  Fails with `UnknownType` if the name has no
registered definition, and with `CyclicType` if resolving the name
transitively requires resolving it again (detected via the visited-set
passed through recursive resolution).  The fuel counts only the depth of
name-recursion; since every recursion step adds a newly-visited
registered name, `resolve`'s budget of one more than the number of
registered names is proven never exhausted
(`resolveName_no_exhaustion`). -/
def resolveName (r : Registry) (fuel : Nat) (visited : List String) (name : String) :
    Except RegErr ResolvedType :=
  match fuel with
  | 0 => .error .Exhausted
  | f + 1 =>
    if name ∈ visited then .error (.CyclicType name)
    else
      match lookupType r name with
      | none => .error (.UnknownType name)
      | some d => resolveDefH (fun m => resolveName r f (name :: visited) m) name d
termination_by structural fuel

/-- The resolver's recursion budget: one more than the number of
registered names, enough for every chain of distinct names. -/
def initialFuel (r : Registry) : Nat := r.types.length + 1

/-- Modelled from the spec: `resolve` on a type-reference string
(spec §4.1); cycles are detected by the visited-set, not by the fuel. -/
def resolve (r : Registry) (s : String) : Except RegErr ResolvedType :=
  resolveStrH (fun m => resolveName r (initialFuel r) [] m) s

def errOf {α : Type} : Except RegErr α → Option RegErr
  | .error e => some e
  | .ok _ => none

def exceptOk {α : Type} : Except RegErr α → Bool
  | .ok _ => true
  | .error _ => false

/-- Modelled from the spec: `validate()` (spec §4.1), absent from the
repository.  Walks every registered type and every method's
parameter/return types, resolving each and collecting all failures
(batch diagnostics); an empty list means the registry is valid. -/
def validate (r : Registry) : List RegErr :=
  (r.types.filterMap (fun td => errOf (resolve r td.1)))
    ++ ((r.methods.map (fun nm =>
          (errOf (resolve r nm.2.type)).toList
            ++ nm.2.params.filterMap (fun p => errOf (resolve r p.type)))).flatten)

/-! ### Reference-graph semantics

The declarative dependency graph of a registry, defined independently of
the resolver, used to characterize `resolve`'s outcomes: dangling
references, reachability, and cycles. -/

mutual

/-- The named references occurring in a parsed type reference. -/
def refDeps : TypeRef → List String
  | .prim _ => []
  | .named n => [n]
  | .generic _ args => refDepsList args
  | .tuple es => refDepsList es
termination_by structural ref => ref

def refDepsList : List TypeRef → List String
  | [] => []
  | t :: ts => refDeps t ++ refDepsList ts
termination_by structural l => l

end

/-- The named references of a stored type-reference string (none when
the string does not parse). -/
def strDeps (s : String) : List String :=
  match parseTypeRef s with
  | some ref => refDeps ref
  | none => []

/-- The type-reference strings stored inside one definition. -/
def storedStrings : TypeDef → List String
  | .enumSimple _ => []
  | .enumTagged ps => ps.map (fun p => p.2)
  | .structDef fs => fs.map (fun p => p.2)
  | .alias s => [s]

/-- The names a stored definition directly references. -/
def defDeps (d : TypeDef) : List String :=
  ((storedStrings d).map strDeps).flatten

/-- Whether every stored reference string of a definition parses. -/
def wfDef (d : TypeDef) : Bool :=
  (storedStrings d).all (fun s => (parseTypeRef s).isSome)

/-- Whether a registered name is itself a plain named reference. -/
def isNamedSelf (s : String) : Bool :=
  match parseTypeRef s with
  | some (.named m) => m == s
  | _ => false

/-- A well-formed registry: every registered name is a plain identifier
and every stored reference string parses. -/
def wfReg (r : Registry) : Bool :=
  r.types.all (fun p => isNamedSelf p.1 && wfDef p.2)

/-- The direct-dependency edge of the registry's reference graph:
`a` depends on `b` when `a`'s stored definition references `b`. -/
def dependsB (r : Registry) (a b : String) : Bool :=
  match lookupType r a with
  | some d => (defDeps d).contains b
  | none => false

/-- Reflexive-transitive reachability in the reference graph. -/
inductive Reaches (r : Registry) : String → String → Prop where
  | refl (a : String) : Reaches r a a
  | step {a b c : String} : dependsB r a b = true → Reaches r b c → Reaches r a c

/-- A nonempty dependency path from `a` to `c`. -/
def stepReaches (r : Registry) (a c : String) : Prop :=
  ∃ b, dependsB r a b = true ∧ Reaches r b c

/-- `n` itself, or a name it transitively references, has no registered
definition. -/
def dangling (r : Registry) (n : String) : Prop :=
  ∃ m, Reaches r n m ∧ lookupType r m = none

/-- Resolving `n` transitively requires resolving some name again: a
name reachable from `n` lies on a nonempty dependency cycle. -/
def cyclicFrom (r : Registry) (n : String) : Prop :=
  ∃ m, Reaches r n m ∧ stepReaches r m m

theorem reaches_snoc {r : Registry} {c : String} :
    ∀ {a b : String}, Reaches r a b → dependsB r b c = true → Reaches r a c := by
  intro a b h1
  induction h1 with
  | refl a => intro h2; exact Reaches.step h2 (Reaches.refl c)
  | step hd _ ih => intro h2; exact Reaches.step hd (ih h2)

theorem stepReaches_extend {r : Registry} {v name b : String}
    (h : stepReaches r v name) (hd : dependsB r name b = true) : stepReaches r v b := by
  obtain ⟨w, hw, hr⟩ := h
  exact ⟨w, hw, reaches_snoc hr hd⟩

theorem dependsB_elim {r : Registry} {a b : String} (h : dependsB r a b = true) :
    ∃ d, lookupType r a = some d ∧ b ∈ defDeps d := by
  unfold dependsB at h
  cases hl : lookupType r a with
  | none => rw [hl] at h; simp at h
  | some d =>
    rw [hl] at h
    dsimp only at h
    exact ⟨d, rfl, by simpa using h⟩

theorem dependsB_intro {r : Registry} {a b : String} {d : TypeDef}
    (hl : lookupType r a = some d) (hb : b ∈ defDeps d) : dependsB r a b = true := by
  unfold dependsB
  rw [hl]
  simpa using hb

theorem lookupType_mem {r : Registry} {n : String} {d : TypeDef}
    (h : lookupType r n = some d) : (n, d) ∈ r.types := by
  unfold lookupType at h
  cases hf : r.types.find? (fun p => p.1 == n) with
  | none => rw [hf] at h; simp at h
  | some p =>
    rw [hf] at h
    simp at h
    have hmem := List.mem_of_find?_eq_some hf
    have hpred := List.find?_some hf
    simp at hpred
    have hp : p = (n, d) := by
      cases p with
      | mk a b => simp at hpred h; rw [hpred, h]
    rw [hp] at hmem
    exact hmem

theorem wfDef_of_lookup {r : Registry} {n : String} {d : TypeDef}
    (hw : wfReg r = true) (hl : lookupType r n = some d) : wfDef d = true := by
  unfold wfReg at hw
  have := (List.all_eq_true.mp hw) (n, d) (lookupType_mem hl)
  simp at this
  exact this.2

theorem parses_of_wfDef {d : TypeDef} {s : String}
    (hw : wfDef d = true) (hs : s ∈ storedStrings d) :
    (parseTypeRef s).isSome = true :=
  (List.all_eq_true.mp hw) s hs

/-! ### Error and success propagation through the resolution helpers

The continuation-passing helpers can only fail through the continuation
or on an unparseable stored string, and when they succeed every named
reference they contain was resolved successfully by the continuation. -/

mutual

theorem resolveRefH_error {h : String → Except RegErr ResolvedType} :
    ∀ (ref : TypeRef) (e : RegErr), resolveRefH h ref = .error e →
      ∃ m, m ∈ refDeps ref ∧ h m = .error e
  | .prim p, e, he => by simp [resolveRefH] at he
  | .named n, e, he => ⟨n, by simp [refDeps], he⟩
  | .generic g args, e, he => by
    rw [resolveRefH] at he
    cases hres : resolveRefsH h args with
    | ok rs => rw [hres] at he; simp at he
    | error e2 =>
      rw [hres] at he
      simp at he
      subst he
      obtain ⟨m, hm, hc⟩ := resolveRefsH_error args e2 hres
      exact ⟨m, by simpa [refDeps] using hm, hc⟩
  | .tuple es, e, he => by
    rw [resolveRefH] at he
    cases hres : resolveRefsH h es with
    | ok rs => rw [hres] at he; simp at he
    | error e2 =>
      rw [hres] at he
      simp at he
      subst he
      obtain ⟨m, hm, hc⟩ := resolveRefsH_error es e2 hres
      exact ⟨m, by simpa [refDeps] using hm, hc⟩
termination_by structural ref => ref

theorem resolveRefsH_error {h : String → Except RegErr ResolvedType} :
    ∀ (l : List TypeRef) (e : RegErr), resolveRefsH h l = .error e →
      ∃ m, m ∈ refDepsList l ∧ h m = .error e
  | [], e, he => by simp [resolveRefsH] at he
  | t :: ts, e, he => by
    rw [resolveRefsH] at he
    cases h1 : resolveRefH h t with
    | error e1 =>
      rw [h1] at he
      simp at he
      subst he
      obtain ⟨m, hm, hc⟩ := resolveRefH_error t e1 h1
      exact ⟨m, by simp [refDepsList, hm], hc⟩
    | ok rt =>
      rw [h1] at he
      dsimp only at he
      cases h2 : resolveRefsH h ts with
      | error e2 =>
        rw [h2] at he
        simp at he
        subst he
        obtain ⟨m, hm, hc⟩ := resolveRefsH_error ts e2 h2
        exact ⟨m, by simp [refDepsList, hm], hc⟩
      | ok rs => rw [h2] at he; simp at he
termination_by structural l => l

end

mutual

theorem resolveRefH_ok {h : String → Except RegErr ResolvedType} :
    ∀ (ref : TypeRef) (res : ResolvedType), resolveRefH h ref = .ok res →
      ∀ m, m ∈ refDeps ref → ∃ res2, h m = .ok res2
  | .prim p, res, he => by intro m hm; simp [refDeps] at hm
  | .named n, res, he => by
    intro m hm
    simp [refDeps] at hm
    subst hm
    exact ⟨res, he⟩
  | .generic g args, res, he => by
    rw [resolveRefH] at he
    cases hres : resolveRefsH h args with
    | error e => rw [hres] at he; simp at he
    | ok rs =>
      intro m hm
      simp [refDeps] at hm
      exact resolveRefsH_ok args rs hres m hm
  | .tuple es, res, he => by
    rw [resolveRefH] at he
    cases hres : resolveRefsH h es with
    | error e => rw [hres] at he; simp at he
    | ok rs =>
      intro m hm
      simp [refDeps] at hm
      exact resolveRefsH_ok es rs hres m hm
termination_by structural ref => ref

theorem resolveRefsH_ok {h : String → Except RegErr ResolvedType} :
    ∀ (l : List TypeRef) (rs : List ResolvedType), resolveRefsH h l = .ok rs →
      ∀ m, m ∈ refDepsList l → ∃ res2, h m = .ok res2
  | [], rs, he => by intro m hm; simp [refDepsList] at hm
  | t :: ts, rs, he => by
    rw [resolveRefsH] at he
    cases h1 : resolveRefH h t with
    | error e => rw [h1] at he; simp at he
    | ok rt =>
      rw [h1] at he
      dsimp only at he
      cases h2 : resolveRefsH h ts with
      | error e => rw [h2] at he; simp at he
      | ok rs2 =>
        intro m hm
        rcases List.mem_append.mp (by simpa [refDepsList] using hm) with hm1 | hm2
        · exact resolveRefH_ok t rt h1 m hm1
        · exact resolveRefsH_ok ts rs2 h2 m hm2
termination_by structural l => l

end

theorem resolveStrH_error {h : String → Except RegErr ResolvedType} {s : String} {e : RegErr}
    (he : resolveStrH h s = .error e) :
    (parseTypeRef s = none ∧ e = .UnknownType s)
    ∨ ∃ m, m ∈ strDeps s ∧ h m = .error e := by
  unfold resolveStrH at he
  cases hp : parseTypeRef s with
  | none =>
    rw [hp] at he
    simp at he
    exact .inl ⟨rfl, he.symm⟩
  | some ref =>
    rw [hp] at he
    dsimp only at he
    obtain ⟨m, hm, hc⟩ := resolveRefH_error ref e he
    exact .inr ⟨m, by simp [strDeps, hp, hm], hc⟩

theorem resolveStrH_ok {h : String → Except RegErr ResolvedType} {s : String}
    {res : ResolvedType} (he : resolveStrH h s = .ok res) :
    ∀ m, m ∈ strDeps s → ∃ res2, h m = .ok res2 := by
  unfold resolveStrH at he
  cases hp : parseTypeRef s with
  | none => rw [hp] at he; simp at he
  | some ref =>
    rw [hp] at he
    dsimp only at he
    intro m hm
    exact resolveRefH_ok ref res he m (by simpa [strDeps, hp] using hm)

theorem resolveFieldsH_error {h : String → Except RegErr ResolvedType} :
    ∀ (l : List (String × String)) (e : RegErr), resolveFieldsH h l = .error e →
      (∃ s, s ∈ l.map (fun p => p.2) ∧ parseTypeRef s = none ∧ e = .UnknownType s)
      ∨ ∃ m, m ∈ ((l.map (fun p => p.2)).map strDeps).flatten ∧ h m = .error e := by
  intro l
  induction l with
  | nil => intro e he; simp [resolveFieldsH] at he
  | cons p rest ih =>
    intro e he
    obtain ⟨label, s⟩ := p
    rw [resolveFieldsH] at he
    cases h1 : resolveStrH h s with
    | error e1 =>
      rw [h1] at he
      simp at he
      subst he
      rcases resolveStrH_error h1 with ⟨hp, hes⟩ | ⟨m, hm, hc⟩
      · exact .inl ⟨s, by simp, hp, hes⟩
      · exact .inr ⟨m, by simp [hm], hc⟩
    | ok rt =>
      rw [h1] at he
      dsimp only at he
      cases h2 : resolveFieldsH h rest with
      | error e2 =>
        rw [h2] at he
        simp at he
        subst he
        rcases ih e2 h2 with ⟨s2, hs2, hp2, hes2⟩ | ⟨m, hm, hc⟩
        · exact .inl ⟨s2, by simp [hs2], hp2, hes2⟩
        · exact .inr ⟨m, by simp; right; simpa using hm, hc⟩
      | ok rs => rw [h2] at he; simp at he

theorem resolveFieldsH_ok {h : String → Except RegErr ResolvedType} :
    ∀ (l : List (String × String)) (rs : List (String × ResolvedType)),
      resolveFieldsH h l = .ok rs →
      ∀ m, m ∈ ((l.map (fun p => p.2)).map strDeps).flatten → ∃ res2, h m = .ok res2 := by
  intro l
  induction l with
  | nil => intro rs he m hm; simp at hm
  | cons p rest ih =>
    intro rs he m hm
    obtain ⟨label, s⟩ := p
    rw [resolveFieldsH] at he
    cases h1 : resolveStrH h s with
    | error e1 => rw [h1] at he; simp at he
    | ok rt =>
      rw [h1] at he
      dsimp only at he
      cases h2 : resolveFieldsH h rest with
      | error e2 => rw [h2] at he; simp at he
      | ok rs2 =>
        simp at hm
        rcases hm with hm1 | hm2
        · exact resolveStrH_ok h1 m hm1
        · exact ih rs2 h2 m (by simpa using hm2)

theorem resolveDefH_error {h : String → Except RegErr ResolvedType} {name : String} :
    ∀ (d : TypeDef) (e : RegErr), resolveDefH h name d = .error e →
      (∃ s, s ∈ storedStrings d ∧ parseTypeRef s = none ∧ e = .UnknownType s)
      ∨ ∃ m, m ∈ defDeps d ∧ h m = .error e := by
  intro d e he
  cases d with
  | enumSimple vs => simp [resolveDefH] at he
  | enumTagged ps =>
    rw [resolveDefH] at he
    cases h1 : resolveFieldsH h ps with
    | ok rs => rw [h1] at he; simp at he
    | error e1 =>
      rw [h1] at he
      simp at he
      subst he
      rcases resolveFieldsH_error ps e1 h1 with ⟨s, hs, hp, hes⟩ | ⟨m, hm, hc⟩
      · exact .inl ⟨s, by simpa [storedStrings] using hs, hp, hes⟩
      · exact .inr ⟨m, by simpa [defDeps, storedStrings] using hm, hc⟩
  | structDef fs =>
    rw [resolveDefH] at he
    cases h1 : resolveFieldsH h fs with
    | ok rs => rw [h1] at he; simp at he
    | error e1 =>
      rw [h1] at he
      simp at he
      subst he
      rcases resolveFieldsH_error fs e1 h1 with ⟨s, hs, hp, hes⟩ | ⟨m, hm, hc⟩
      · exact .inl ⟨s, by simpa [storedStrings] using hs, hp, hes⟩
      · exact .inr ⟨m, by simpa [defDeps, storedStrings] using hm, hc⟩
  | «alias» s =>
    rw [resolveDefH] at he
    rcases resolveStrH_error he with ⟨hp, hes⟩ | ⟨m, hm, hc⟩
    · exact .inl ⟨s, by simp [storedStrings], hp, hes⟩
    · exact .inr ⟨m, by simpa [defDeps, storedStrings] using hm, hc⟩

theorem resolveDefH_ok {h : String → Except RegErr ResolvedType} {name : String} :
    ∀ (d : TypeDef) (res : ResolvedType), resolveDefH h name d = .ok res →
      ∀ m, m ∈ defDeps d → ∃ res2, h m = .ok res2 := by
  intro d res he m hm
  cases d with
  | enumSimple vs => simp [defDeps, storedStrings] at hm
  | enumTagged ps =>
    rw [resolveDefH] at he
    cases h1 : resolveFieldsH h ps with
    | error e1 => rw [h1] at he; simp at he
    | ok rs =>
      exact resolveFieldsH_ok ps rs h1 m (by simpa [defDeps, storedStrings] using hm)
  | structDef fs =>
    rw [resolveDefH] at he
    cases h1 : resolveFieldsH h fs with
    | error e1 => rw [h1] at he; simp at he
    | ok rs =>
      exact resolveFieldsH_ok fs rs h1 m (by simpa [defDeps, storedStrings] using hm)
  | «alias» s =>
    rw [resolveDefH] at he
    exact resolveStrH_ok he m (by simpa [defDeps, storedStrings] using hm)

/-! ### The resolver's recursion budget is never exhausted

Every name-recursion step adds a newly-visited registered name, so the
number of registered names still unvisited strictly decreases; starting
from `initialFuel` (one more than the number of registered names) the
fuel can therefore never reach zero. -/

/-- The number of registered-name occurrences not yet visited. -/
def unvisitedCount (r : Registry) (visited : List String) : Nat :=
  ((r.types.map Prod.fst).filter (fun a => decide (¬ a ∈ visited))).length

theorem length_filter_lt {α : Type} {q : α → Bool} :
    ∀ {L : List α} {x : α}, x ∈ L → q x = false → (L.filter q).length < L.length := by
  intro L
  induction L with
  | nil => intro x hx; simp at hx
  | cons a as ih =>
    intro x hx hq
    rcases List.mem_cons.mp hx with rfl | hx2
    · have h1 : List.filter q (x :: as) = List.filter q as := by
        rw [List.filter_cons, hq]; simp
      rw [h1]
      have h2 := List.length_filter_le q as
      simp only [List.length_cons]
      omega
    · by_cases hqa : q a = true
      · have h1 : List.filter q (a :: as) = a :: List.filter q as := by
          rw [List.filter_cons, hqa]; simp
        rw [h1]
        have h2 := ih hx2 hq
        simp only [List.length_cons]
        omega
      · have h1 : List.filter q (a :: as) = List.filter q as := by
          rw [List.filter_cons]
          simp [hqa]
        rw [h1]
        have h2 := ih hx2 hq
        simp only [List.length_cons]
        omega

theorem unvisitedCount_nil (r : Registry) : unvisitedCount r [] = r.types.length := by
  simp [unvisitedCount]

theorem unvisitedCount_cons {r : Registry} {visited : List String} {name : String}
    {d : TypeDef} (hl : lookupType r name = some d) (hv : ¬ name ∈ visited) :
    unvisitedCount r (name :: visited) + 1 ≤ unvisitedCount r visited := by
  have hmem : name ∈ r.types.map Prod.fst :=
    List.mem_map.mpr ⟨(name, d), lookupType_mem hl, rfl⟩
  have hsub : (r.types.map Prod.fst).filter (fun a => decide (¬ a ∈ name :: visited))
      = ((r.types.map Prod.fst).filter (fun a => decide (¬ a ∈ visited))).filter
          (fun a => decide (¬ a = name)) := by
    rw [List.filter_filter]
    apply List.filter_congr
    intro a _
    by_cases h1 : a = name <;> by_cases h2 : a ∈ visited <;>
      simp [h1, h2, List.mem_cons]
  unfold unvisitedCount
  rw [hsub]
  have hx : name ∈ (r.types.map Prod.fst).filter (fun a => decide (¬ a ∈ visited)) :=
    List.mem_filter.mpr ⟨hmem, by simp [hv]⟩
  have hlt := length_filter_lt (q := fun a => decide (¬ a = name)) hx (by simp)
  omega

/-- With a budget above the number of unvisited registered names, the
resolver never runs out of fuel: `Exhausted` is unreachable. -/
theorem resolveName_no_exhaustion (r : Registry) :
    ∀ (fuel : Nat) (visited : List String) (name : String),
      unvisitedCount r visited + 1 ≤ fuel →
      resolveName r fuel visited name ≠ .error .Exhausted := by
  intro fuel
  induction fuel with
  | zero => intro visited name hle; omega
  | succ f ih =>
    intro visited name hle he
    rw [resolveName] at he
    by_cases hv : name ∈ visited
    · rw [if_pos hv] at he; simp at he
    · rw [if_neg hv] at he
      cases hl : lookupType r name with
      | none => rw [hl] at he; simp at he
      | some d =>
        rw [hl] at he
        dsimp only at he
        rcases resolveDefH_error d .Exhausted he with ⟨s, _, _, habs⟩ | ⟨m, _, hcall⟩
        · exact RegErr.noConfusion habs
        · have hcount := unvisitedCount_cons hl hv
          exact ih (name :: visited) m (by omega) hcall

/-- The resolver only ever reports `UnknownType`, `CyclicType`, or the
internal `Exhausted` marker. -/
theorem resolveName_error_kinds (r : Registry) :
    ∀ (fuel : Nat) (visited : List String) (name : String) (e : RegErr),
      resolveName r fuel visited name = .error e →
      (∃ m, e = .UnknownType m) ∨ (∃ m, e = .CyclicType m) ∨ e = .Exhausted := by
  intro fuel
  induction fuel with
  | zero =>
    intro visited name e he
    rw [resolveName] at he
    injection he with h
    exact .inr (.inr h.symm)
  | succ f ih =>
    intro visited name e he
    rw [resolveName] at he
    by_cases hv : name ∈ visited
    · rw [if_pos hv] at he
      injection he with h
      exact .inr (.inl ⟨name, h.symm⟩)
    · rw [if_neg hv] at he
      cases hl : lookupType r name with
      | none =>
        rw [hl] at he
        injection he with h
        exact .inl ⟨name, h.symm⟩
      | some d =>
        rw [hl] at he
        dsimp only at he
        rcases resolveDefH_error d e he with ⟨s, _, _, hes⟩ | ⟨m, _, hcall⟩
        · exact .inl ⟨s, hes⟩
        · exact ih (name :: visited) m e hcall

/-- Soundness of `UnknownType`: the reported name is reachable from the
resolved name and has no registered definition. -/
theorem resolveName_unknown_sound (r : Registry) (hw : wfReg r = true) :
    ∀ (fuel : Nat) (visited : List String) (name m : String),
      resolveName r fuel visited name = .error (.UnknownType m) →
      lookupType r m = none ∧ Reaches r name m := by
  intro fuel
  induction fuel with
  | zero =>
    intro visited name m he
    rw [resolveName] at he
    injection he with h
    exact RegErr.noConfusion h
  | succ f ih =>
    intro visited name m he
    rw [resolveName] at he
    by_cases hv : name ∈ visited
    · rw [if_pos hv] at he
      injection he with h
      exact RegErr.noConfusion h
    · rw [if_neg hv] at he
      cases hl : lookupType r name with
      | none =>
        rw [hl] at he
        injection he with h
        injection h with h2
        rw [← h2]
        exact ⟨hl, Reaches.refl name⟩
      | some d =>
        rw [hl] at he
        dsimp only at he
        rcases resolveDefH_error d _ he with ⟨s, hsmem, hparse, hes⟩ | ⟨b, hbmem, hcall⟩
        · exfalso
          have := parses_of_wfDef (wfDef_of_lookup hw hl) hsmem
          rw [hparse] at this
          simp at this
        · obtain ⟨hnone, hre⟩ := ih (name :: visited) b m hcall
          exact ⟨hnone, Reaches.step (dependsB_intro hl hbmem) hre⟩

/-- Soundness of `CyclicType`: under the visited-set invariant, the
reported name is reachable from the resolved name and lies on a genuine
nonempty dependency cycle. -/
theorem resolveName_cyclic_sound (r : Registry) :
    ∀ (fuel : Nat) (visited : List String) (name m : String),
      resolveName r fuel visited name = .error (.CyclicType m) →
      (∀ v, v ∈ visited → stepReaches r v name) →
      Reaches r name m ∧ stepReaches r m m := by
  intro fuel
  induction fuel with
  | zero =>
    intro visited name m he _
    rw [resolveName] at he
    injection he with h
    exact RegErr.noConfusion h
  | succ f ih =>
    intro visited name m he hinv
    rw [resolveName] at he
    by_cases hv : name ∈ visited
    · rw [if_pos hv] at he
      injection he with h
      injection h with h2
      rw [← h2]
      exact ⟨Reaches.refl name, hinv name hv⟩
    · rw [if_neg hv] at he
      cases hl : lookupType r name with
      | none =>
        rw [hl] at he
        injection he with h
        exact RegErr.noConfusion h
      | some d =>
        rw [hl] at he
        dsimp only at he
        rcases resolveDefH_error d _ he with ⟨s, _, _, hes⟩ | ⟨b, hbmem, hcall⟩
        · exact RegErr.noConfusion hes
        · have hedge : dependsB r name b = true := dependsB_intro hl hbmem
          have hinv2 : ∀ v, v ∈ name :: visited → stepReaches r v b := by
            intro v hvm
            rcases List.mem_cons.mp hvm with rfl | hv2
            · exact ⟨b, hedge, Reaches.refl b⟩
            · exact stepReaches_extend (hinv v hv2) hedge
          obtain ⟨hre, hcyc⟩ := ih (name :: visited) b m hcall hinv2
          exact ⟨Reaches.step hedge hre, hcyc⟩

/-- Soundness of success: when resolution of a name succeeds, everything
reachable from it is registered, avoids the visited-set, and lies on no
cycle. -/
theorem resolveName_ok_sound (r : Registry) :
    ∀ (fuel : Nat) (visited : List String) (name : String) (res : ResolvedType),
      resolveName r fuel visited name = .ok res →
      ∀ m, Reaches r name m →
        (lookupType r m).isSome = true ∧ ¬ m ∈ visited ∧ ¬ stepReaches r m m := by
  intro fuel
  induction fuel with
  | zero =>
    intro visited name res he
    rw [resolveName] at he
    exact Except.noConfusion he
  | succ f ih =>
    intro visited name res he m hm
    rw [resolveName] at he
    by_cases hv : name ∈ visited
    · rw [if_pos hv] at he
      exact Except.noConfusion he
    · rw [if_neg hv] at he
      cases hl : lookupType r name with
      | none =>
        rw [hl] at he
        exact Except.noConfusion he
      | some d =>
        rw [hl] at he
        dsimp only at he
        have hsub : ∀ b, b ∈ defDeps d → ∀ m2, Reaches r b m2 →
            (lookupType r m2).isSome = true ∧ ¬ m2 ∈ name :: visited
              ∧ ¬ stepReaches r m2 m2 := by
          intro b hb m2 hm2
          obtain ⟨res2, hcall⟩ := resolveDefH_ok d res he b hb
          exact ih (name :: visited) b res2 hcall m2 hm2
        have hnc : ¬ stepReaches r name name := by
          rintro ⟨b, hdep, hreach⟩
          obtain ⟨d2, hl2, hb2⟩ := dependsB_elim hdep
          rw [hl] at hl2
          injection hl2 with hd2
          rw [← hd2] at hb2
          exact (hsub b hb2 name hreach).2.1 (List.mem_cons_self name visited)
        cases hm with
        | refl => exact ⟨by simp [hl], hv, hnc⟩
        | step hdep hreach =>
          obtain ⟨d2, hl2, hb2⟩ := dependsB_elim hdep
          rw [hl] at hl2
          injection hl2 with hd2
          rw [← hd2] at hb2
          have h3 := hsub _ hb2 m hreach
          exact ⟨h3.1, fun hmv => h3.2.1 (List.mem_cons_of_mem _ hmv), h3.2.2⟩

/-- A runtime argument value, as a generic RPC client would hold it
(spec §4.2–§4.4): primitives, vectors, options, tuples, a tagged-enum
value `(variant name, payload)`, and a struct value mapping field names
to values.  A simple-enum value is a 0-based index or a variant name. -/
inductive Value where
  | vBool : Bool → Value
  | vNum : Nat → Value
  | vStr : String → Value
  | vList : List Value → Value
  | vNone : Value
  | vSome : Value → Value
  | vTuple : List Value → Value
  | vTag : String → Value → Value
  | vRecord : List (String × Value) → Value

def lookupVal (fvs : List (String × Value)) (n : String) : Option Value :=
  (fvs.find? (fun p => p.1 == n)).map (·.2)

mutual

/-- Size of a resolved type tree, used to budget recursion fuel. -/
def sizeResolved : ResolvedType → Nat
  | .prim _ => 1
  | .enumSimple _ _ => 1
  | .enumTagged _ ps => 1 + sizeResolvedPairs ps
  | .structType _ ps => 1 + sizeResolvedPairs ps
  | .generic _ l => 1 + sizeResolvedList l
  | .tuple l => 1 + sizeResolvedList l
termination_by structural t => t

def sizeResolvedPairs : List (String × ResolvedType) → Nat
  | [] => 1
  | (_, t) :: rest => 1 + sizeResolved t + sizeResolvedPairs rest
termination_by structural l => l

def sizeResolvedList : List ResolvedType → Nat
  | [] => 1
  | t :: rest => 1 + sizeResolved t + sizeResolvedList rest
termination_by structural l => l

end

mutual

/-- Size of a runtime value tree, used to budget recursion fuel. -/
def sizeValue : Value → Nat
  | .vBool _ => 1
  | .vNum _ => 1
  | .vStr _ => 1
  | .vList l => 1 + sizeValueList l
  | .vNone => 1
  | .vSome x => 1 + sizeValue x
  | .vTuple l => 1 + sizeValueList l
  | .vTag _ x => 1 + sizeValue x
  | .vRecord ps => 1 + sizeValuePairs ps
termination_by structural v => v

def sizeValuePairs : List (String × Value) → Nat
  | [] => 1
  | (_, x) :: rest => 1 + sizeValue x + sizeValuePairs rest
termination_by structural l => l

def sizeValueList : List Value → Nat
  | [] => 1
  | x :: rest => 1 + sizeValue x + sizeValueList rest
termination_by structural l => l

end

mutual

/-- Modelled from the spec: shape checking of a runtime value against a
resolved type (spec §4.4), absent from the repository.  Every recursive
call strictly shrinks the combined size of the type and the value, so the
fuel supplied by `shapeCheck` is never exhausted. -/
def shapeMatches (fuel : Nat) (rt : ResolvedType) (v : Value) : Bool :=
  match fuel with
  | 0 => false
  | f + 1 =>
    match rt, v with
    | .prim "bool", .vBool _ => true
    | .prim "u32", .vNum n => n < 2 ^ 32
    | .prim "u16", .vNum n => n < 2 ^ 16
    | .prim "String", .vStr _ => true
    | .prim "Hash", .vStr _ => true
    | .prim "AccountId", .vStr _ => true
    | .enumSimple _ vs, .vNum i => i < vs.length
    | .enumSimple _ vs, .vStr s => vs.contains s
    | .enumTagged _ ps, .vTag tag pv => taggedMatches f ps tag pv
    | .structType _ fs, .vRecord fvs => recordMatches f fs fvs
    | .generic "Vec" [t], .vList xs => vecMatches f t xs
    | .generic "Option" [_], .vNone => true
    | .generic "Option" [t], .vSome x => shapeMatches f t x
    | .tuple ts, .vTuple xs => tupleMatches f ts xs
    | _, _ => false
termination_by structural fuel

/-- A tagged-enum value matches when its tag is a declared variant and its
payload matches that variant's resolved payload type. -/
def taggedMatches (fuel : Nat) (ps : List (String × ResolvedType)) (tag : String)
    (pv : Value) : Bool :=
  match fuel with
  | 0 => false
  | f + 1 =>
    match ps with
    | [] => false
    | (n, pt) :: rest =>
      if n == tag then shapeMatches f pt pv else taggedMatches f rest tag pv
termination_by structural fuel

/-- A struct value matches when every declared field is present with a
matching value. -/
def recordMatches (fuel : Nat) (fs : List (String × ResolvedType))
    (fvs : List (String × Value)) : Bool :=
  match fuel with
  | 0 => false
  | f + 1 =>
    match fs with
    | [] => true
    | (fn, ft) :: rest =>
      match lookupVal fvs fn with
      | some fv => shapeMatches f ft fv && recordMatches f rest fvs
      | none => false
termination_by structural fuel

def vecMatches (fuel : Nat) (t : ResolvedType) (xs : List Value) : Bool :=
  match fuel with
  | 0 => false
  | f + 1 =>
    match xs with
    | [] => true
    | x :: rest => shapeMatches f t x && vecMatches f t rest
termination_by structural fuel

def tupleMatches (fuel : Nat) (ts : List ResolvedType) (xs : List Value) : Bool :=
  match fuel with
  | 0 => false
  | f + 1 =>
    match ts, xs with
    | [], [] => true
    | t :: ts1, x :: xs1 => shapeMatches f t x && tupleMatches f ts1 xs1
    | _, _ => false
termination_by structural fuel

end

/-- Shape checking with its fuel set above the maximal recursion depth
(the combined size of type and value shrinks at every recursive call). -/
def shapeCheck (rt : ResolvedType) (v : Value) : Bool :=
  shapeMatches (sizeResolved rt + sizeValue v + 1) rt v

/-- Modelled from the spec: `checkArgs(name, args)` (spec §4.4), absent
from the repository.  Verifies the argument count against the declared
required/optional bounds and that each supplied argument's shape matches
its declared parameter type after resolution; returns the collected
errors (empty = success). -/
def checkArgs (r : Registry) (name : String) (args : List Value) : List RegErr :=
  match lookupMethod r name with
  | none => [.UnknownMethod name]
  | some m =>
    let minArity := (m.params.filter (fun p => !p.isOptional)).length
    let maxArity := m.params.length
    if args.length < minArity || maxArity < args.length then
      [.ArityMismatch name args.length minArity maxArity]
    else
      (List.zip args m.params).filterMap (fun ap =>
        match resolve r ap.2.type with
        | .error e => some e
        | .ok rt => if shapeCheck rt ap.1 then none else some .ShapeMismatch)

/-! ### Codec model

The spec keeps the byte-level codec external (§6), but it pins down the
properties the codec must have: a simple-enum value encodes as its
0-based variant index (§4.2, §9), a tagged-enum discriminant is the
variant's position in declaration order (§4.2), and struct fields are
encoded strictly in declared order (§4.3).  The minimal codec below is
modelled from those words. -/

/-- Modelled from the spec: encoding of a simple-enum value (spec §4.2,
§8); an in-range 0-based index encodes as its discriminant byte, an
out-of-range index fails with `ShapeMismatch`. -/
def encodeSimpleEnum (vs : List String) (i : Nat) : Except RegErr (List Nat) :=
  if i < vs.length then .ok [i] else .error .ShapeMismatch

/-- Modelled from the spec: decoding of a simple-enum value (spec §4.2,
§8); the discriminant byte selects the variant in declaration order,
yielding the index together with the variant name. -/
def decodeSimpleEnum (vs : List String) (bytes : List Nat) : Except RegErr (Nat × String) :=
  match bytes with
  | [i] =>
    match vs.get? i with
    | some nm => .ok (i, nm)
    | none => .error .ShapeMismatch
  | _ => .error .ShapeMismatch

def indexOfFrom (k : Nat) (vs : List String) (s : String) : Option Nat :=
  match vs with
  | [] => none
  | v :: rest => if v == s then some k else indexOfFrom (k + 1) rest s

/-- The 0-based position of a variant (or field) name in a declared
ordered mapping. -/
def variantIndexFrom {α : Type} (k : Nat) (ps : List (String × α)) (tag : String) : Option Nat :=
  match ps with
  | [] => none
  | (n, _) :: rest => if n == tag then some k else variantIndexFrom (k + 1) rest tag

def variantIndex {α : Type} (ps : List (String × α)) (tag : String) : Option Nat :=
  variantIndexFrom 0 ps tag

/-- Modelled from the spec: reading a tagged-enum discriminant (spec §4.2);
the discriminant byte selects the variant at that position of the
declared mapping, yielding the variant name and the remaining payload
bytes. -/
def decodeTaggedHead (ps : List (String × ResolvedType)) (bytes : List Nat) :
    Except RegErr (String × List Nat) :=
  match bytes with
  | i :: rest =>
    match ps.get? i with
    | some np => .ok (np.1, rest)
    | none => .error .ShapeMismatch
  | [] => .error .ShapeMismatch

mutual

/-- Modelled from the spec: the type-directed value encoder the external
codec layer applies to a resolved shape (spec §4.2, §4.3, §6); numbers
are little-endian fixed width, vectors and strings are length-prefixed,
options are `0` / `1 ++ payload`, enum discriminants are declaration-order
indices, and struct fields are concatenated strictly in declared order.
Every recursive call strictly shrinks the combined size of the type and
the value, so the fuel supplied by `encode` is never exhausted. -/
def encodeAt (fuel : Nat) (rt : ResolvedType) (v : Value) : Except RegErr (List Nat) :=
  match fuel with
  | 0 => .error .ShapeMismatch
  | f + 1 =>
    match rt, v with
    | .prim "bool", .vBool b => .ok [if b then 1 else 0]
    | .prim "u32", .vNum n =>
      if n < 2 ^ 32 then .ok [n % 256, n / 256 % 256, n / 2 ^ 16 % 256, n / 2 ^ 24 % 256]
      else .error .ShapeMismatch
    | .prim "u16", .vNum n =>
      if n < 2 ^ 16 then .ok [n % 256, n / 256 % 256] else .error .ShapeMismatch
    | .prim "String", .vStr s => .ok (s.length :: s.data.map Char.toNat)
    | .prim "Hash", .vStr s => .ok (s.data.map Char.toNat)
    | .prim "AccountId", .vStr s => .ok (s.data.map Char.toNat)
    | .enumSimple _ vs, .vNum i => encodeSimpleEnum vs i
    | .enumSimple _ vs, .vStr s =>
      match indexOfFrom 0 vs s with
      | some i => .ok [i]
      | none => .error .ShapeMismatch
    | .enumTagged _ ps, .vTag tag pv => taggedEncodeFrom f 0 ps tag pv
    | .structType _ fs, .vRecord fvs => recordEncode f fs fvs
    | .generic "Vec" [t], .vList xs =>
      match vecEncode f t xs with
      | .ok bs => .ok (xs.length :: bs)
      | .error e => .error e
    | .generic "Option" [_], .vNone => .ok [0]
    | .generic "Option" [t], .vSome x =>
      match encodeAt f t x with
      | .ok bs => .ok (1 :: bs)
      | .error e => .error e
    | .tuple ts, .vTuple xs => tupleEncode f ts xs
    | _, _ => .error .ShapeMismatch
termination_by structural fuel

/-- Encode a tagged-enum value: the discriminant written is the variant's
position in the declared mapping order, followed by the encoded payload. -/
def taggedEncodeFrom (fuel : Nat) (k : Nat) (ps : List (String × ResolvedType)) (tag : String)
    (pv : Value) : Except RegErr (List Nat) :=
  match fuel with
  | 0 => .error .ShapeMismatch
  | f + 1 =>
    match ps with
    | [] => .error .ShapeMismatch
    | (n, pt) :: rest =>
      if n == tag then
        match encodeAt f pt pv with
        | .ok bs => .ok (k :: bs)
        | .error e => .error e
      else taggedEncodeFrom f (k + 1) rest tag pv
termination_by structural fuel

/-- Encode a struct value: fields are processed strictly in the declared
order `fs`, each looked up in the supplied bindings `fvs`, so the order in
which the caller supplied the bindings is irrelevant. -/
def recordEncode (fuel : Nat) (fs : List (String × ResolvedType))
    (fvs : List (String × Value)) : Except RegErr (List Nat) :=
  match fuel with
  | 0 => .error .ShapeMismatch
  | f + 1 =>
    match fs with
    | [] => .ok []
    | (fn, ft) :: rest =>
      match lookupVal fvs fn with
      | none => .error .ShapeMismatch
      | some fv =>
        match encodeAt f ft fv with
        | .error e => .error e
        | .ok bs =>
          match recordEncode f rest fvs with
          | .error e => .error e
          | .ok bs2 => .ok (bs ++ bs2)
termination_by structural fuel

def vecEncode (fuel : Nat) (t : ResolvedType) (xs : List Value) : Except RegErr (List Nat) :=
  match fuel with
  | 0 => .error .ShapeMismatch
  | f + 1 =>
    match xs with
    | [] => .ok []
    | x :: rest =>
      match encodeAt f t x with
      | .error e => .error e
      | .ok bs =>
        match vecEncode f t rest with
        | .error e => .error e
        | .ok bs2 => .ok (bs ++ bs2)
termination_by structural fuel

def tupleEncode (fuel : Nat) (ts : List ResolvedType) (xs : List Value) :
    Except RegErr (List Nat) :=
  match fuel with
  | 0 => .error .ShapeMismatch
  | f + 1 =>
    match ts, xs with
    | [], [] => .ok []
    | t :: ts1, x :: xs1 =>
      match encodeAt f t x with
      | .error e => .error e
      | .ok bs =>
        match tupleEncode f ts1 xs1 with
        | .error e => .error e
        | .ok bs2 => .ok (bs ++ bs2)
    | _, _ => .error .ShapeMismatch
termination_by structural fuel

end

/-- Type-directed encoding with its fuel set above the maximal recursion
depth (the combined size of type and value shrinks at every call). -/
def encode (rt : ResolvedType) (v : Value) : Except RegErr (List Nat) :=
  encodeAt (sizeResolved rt + sizeValue v + 1) rt v

/-- Declared-order struct encoding with ample fuel: the entry point the
codec applies to a struct's resolved field list and a caller's bindings. -/
def encodeStructDeclared (fs : List (String × ResolvedType)) (fvs : List (String × Value)) :
    Except RegErr (List Nat) :=
  recordEncode (sizeResolvedPairs fs + sizeValuePairs fvs + 1) fs fvs

/-- The rejected alternative struct encoder (spec §8): it takes the field
order from the input bindings rather than from the declaration, encoding
each supplied binding in turn against its declared type.  It exists only
to be compared against `encodeStructDeclared`, which honors declared
order. -/
def encodeStructInputOrder (declared : List (String × ResolvedType)) :
    List (String × Value) → Except RegErr (List Nat)
  | [] => .ok []
  | (fn, fv) :: rest =>
    match (declared.find? (fun p => p.1 == fn)).map (·.2) with
    | none => .error .ShapeMismatch
    | some ft =>
      match encode ft fv with
      | .error e => .error e
      | .ok bs =>
        match encodeStructInputOrder declared rest with
        | .error e => .error e
        | .ok bs2 => .ok (bs ++ bs2)

/-! ### The schema of src/index.js

`schemaSrcTypes` transcribes the `types` object literal of src/index.js
in source-text order, including the literal's second `ShardsFormat` entry
(lines 82–87); `rpc` transcribes the `rpc` object (lines 2–12). -/

def schemaSrcTypes : List (String × TypeDef) :=
  [("ShardsFormat", .enumSimple ["edn", "binary"]),
   ("AudioCategories", .enumSimple ["oggFile", "mp3File"]),
   ("ModelCategories", .enumSimple ["gltfFile", "sdf", "physicsCollider"]),
   ("TextureCategories", .enumSimple ["pngFile", "jpgFile"]),
   ("VectorCategories", .enumSimple ["svgFile", "ttfFile"]),
   ("VideoCategories", .enumSimple ["mkvFile", "mp4File"]),
   ("TextCategories", .enumSimple ["plain", "json"]),
   ("BinaryCategories", .enumSimple ["wasmProgram", "wasmReactor", "blendFile", "onnxModel"]),
   ("ShardsScriptInfo",
     .structDef [("format", "ShardsFormat"),
                 ("requiring", "Vec<ShardsTrait>"),
                 ("implementing", "Vec<ShardsTrait>")]),
   ("ShardsTrait", .alias "Vec<u16>"),
   ("ShardsFormat", .enumSimple ["edn", "binary"]),
   ("Categories",
     .enumTagged [("text", "TextCategories"),
                  ("trait", "Option<ShardsTrait>"),
                  ("shards", "ShardsScriptInfo"),
                  ("audio", "AudioCategories"),
                  ("texture", "TextureCategories"),
                  ("vector", "VectorCategories"),
                  ("video", "VideoCategories"),
                  ("model", "ModelCategories"),
                  ("binary", "BinaryCategories")]),
   ("BlockHash", .alias "Hash"),
   ("GetProtosParams",
     .structDef [("desc", "bool"),
                 ("from", "u32"),
                 ("limit", "u32"),
                 ("metadata_keys", "Vec<String>"),
                 ("owner", "Option<AccountId>"),
                 ("return_owners", "bool"),
                 ("categories", "Vec<Categories>"),
                 ("tags", "Vec<String>"),
                 ("available", "Option<bool>"),
                 ("exclude_tags", "bool")])]

/-- The `getProtos` method descriptor (src/index.js lines 4–10). -/
def getProtosMethod : MethodDescriptor :=
  { description := "this is the description"
    type := "String"
    params := [{ name := "params", type := "GetProtosParams", isOptional := false },
               { name := "at", type := "BlockHash", isOptional := true }] }

/-- The `rpc` object of src/index.js: the `protos` namespace containing
the single `getProtos` method. -/
def rpc : List (String × List (String × MethodDescriptor)) :=
  [("protos", [("getProtos", getProtosMethod)])]

/-- The flat method table a registry consumer sees. -/
def protosMethods : List (String × MethodDescriptor) :=
  (rpc.map (·.2)).flatten

/-- Replace the value at the first occurrence of key `k`, keeping its
position. -/
def replaceFirst (m : List (String × TypeDef)) (k : String) (v : TypeDef) :
    List (String × TypeDef) :=
  match m with
  | [] => []
  | (k0, v0) :: rest =>
    if k0 == k then (k0, v) :: rest else (k0, v0) :: replaceFirst rest k v

/-- JavaScript object-literal semantics for duplicate keys: a later entry
overwrites the value of an earlier entry with the same key, keeping the
key's first-insertion position; distinct keys keep source order. -/
def objectLiteral (entries : List (String × TypeDef)) : List (String × TypeDef) :=
  entries.foldl
    (fun m kv =>
      if (m.find? (fun p => p.1 == kv.1)).isSome then replaceFirst m kv.1 kv.2
      else m ++ [kv])
    []

/-- The `types` mapping actually exported by the module, after JavaScript
object-literal evaluation of the literal's entries. -/
def exportedTypes : List (String × TypeDef) := objectLiteral schemaSrcTypes

/-- The registry a consumer builds from the exported schema. -/
def protosRegistry : Registry :=
  { types := exportedTypes, methods := protosMethods }

def emptyRegistry : Registry := { types := [], methods := [] }

/-- A two-name registry forming the self-referential chain `A -> B -> A`. -/
def cyclicRegistry : Registry :=
  { types := [("A", .alias "B"), ("B", .alias "A")], methods := [] }

/-- A registry with one registered name aliasing an unregistered one. -/
def danglingRegistry : Registry :=
  { types := [("A", .alias "X")], methods := [] }

/-- A registry whose name `A` both transitively references the
unregistered `X` and reaches the self-cycle `C -> C`; its first field
leads to the cycle, so the resolver reports `CyclicType` even though a
dangling reference exists. -/
def mixedRegistry : Registry :=
  { types := [("A", .structDef [("c", "C"), ("x", "X")]), ("C", .alias "C")],
    methods := [] }

/-- A well-shaped `GetProtosParams` argument value (spec §8's `p`). -/
def pVal : Value :=
  .vRecord [("desc", .vBool true),
            ("from", .vNum 0),
            ("limit", .vNum 10),
            ("metadata_keys", .vList []),
            ("owner", .vNone),
            ("return_owners", .vBool false),
            ("categories", .vList [.vTag "text" (.vNum 1)]),
            ("tags", .vList [.vStr "fx"]),
            ("available", .vNone),
            ("exclude_tags", .vBool false)]

/-- A block-hash argument value for the optional `at` parameter. -/
def blockHashVal : Value := .vStr "0xabc123"

/-- The same bindings as `pVal`, supplied with the first two fields in
swapped order. -/
def pValPermuted : List (String × Value) :=
  [("from", .vNum 0),
   ("desc", .vBool true),
   ("limit", .vNum 10),
   ("metadata_keys", .vList []),
   ("owner", .vNone),
   ("return_owners", .vBool false),
   ("categories", .vList [.vTag "text" (.vNum 1)]),
   ("tags", .vList [.vStr "fx"]),
   ("available", .vNone),
   ("exclude_tags", .vBool false)]

def pValFields : List (String × Value) :=
  match pVal with
  | .vRecord fvs => fvs
  | _ => []

/-- The resolved field list of `GetProtosParams`. -/
def gpFieldsResolved : List (String × ResolvedType) :=
  match resolve protosRegistry "GetProtosParams" with
  | .ok (.structType _ fs) => fs
  | _ => []

/-- The declared variant mapping of the `Categories` tagged enum as
written in the schema (src/index.js lines 89–101). -/
def categoriesVariantsSrc : List (String × String) :=
  match lookupType protosRegistry "Categories" with
  | some (.enumTagged ps) => ps
  | _ => []

/-- The resolved variant mapping of `Categories`. -/
def categoriesResolved : List (String × ResolvedType) :=
  match resolve protosRegistry "Categories" with
  | .ok (.enumTagged _ ps) => ps
  | _ => []

/-- The variant list of the `ShardsFormat` simple enum. -/
def shardsFormatVariants : List String :=
  match lookupType protosRegistry "ShardsFormat" with
  | some (.enumSimple vs) => vs
  | _ => []

/-- The variant list of the `BinaryCategories` simple enum. -/
def binaryCategoriesVariants : List String :=
  match lookupType protosRegistry "BinaryCategories" with
  | some (.enumSimple vs) => vs
  | _ => []

/-- The declared field mapping of `GetProtosParams` as written in the
schema (src/index.js lines 105–116). -/
def gpFieldsSrc : List (String × String) :=
  match lookupType protosRegistry "GetProtosParams" with
  | some (.structDef fs) => fs
  | _ => []

instance {ε α : Type} [DecidableEq ε] [DecidableEq α] : DecidableEq (Except ε α) :=
  fun x y =>
    match x, y with
    | .ok a, .ok b =>
      if h : a = b then .isTrue (by rw [h]) else .isFalse (fun hh => by cases hh; exact h rfl)
    | .error a, .error b =>
      if h : a = b then .isTrue (by rw [h]) else .isFalse (fun hh => by cases hh; exact h rfl)
    | .ok _, .error _ => .isFalse (fun hh => by cases hh)
    | .error _, .ok _ => .isFalse (fun hh => by cases hh)

/-! ### Helper lemmas -/

theorem resolveName_unknown (r : Registry) (f : Nat) (v : List String) (n : String)
    (hv : n ∉ v) (hl : lookupType r n = none) :
    resolveName r (f + 1) v n = .error (.UnknownType n) := by
  rw [resolveName]
  simp [hv, hl]

/-- `resolve` on a plain name hands the name to `resolveName` with the
full initial budget. -/
theorem resolve_eq_resolveName (r : Registry) (n : String)
    (hp : parseTypeRef n = some (.named n)) :
    resolve r n = resolveName r (initialFuel r) [] n := by
  unfold resolve resolveStrH
  rw [hp]
  simp only [resolveRefH]

/-- `resolve` on an unregistered plain name fails with `UnknownType`. -/
theorem resolve_unknown (r : Registry) (n : String)
    (hp : parseTypeRef n = some (.named n)) (hl : lookupType r n = none) :
    resolve r n = .error (.UnknownType n) := by
  rw [resolve_eq_resolveName r n hp]
  exact resolveName_unknown r r.types.length [] n (by simp) hl

/-- A registry whose `validate()` is empty resolves every registered
name successfully. -/
theorem resolve_ok_of_validate_nil (r : Registry) (n : String) (d : TypeDef)
    (hv : validate r = []) (hm : (n, d) ∈ r.types) : exceptOk (resolve r n) = true := by
  unfold validate at hv
  rw [List.append_eq_nil] at hv
  have h1 := hv.1
  rw [List.filterMap_eq_nil_iff] at h1
  have h2 := h1 (n, d) hm
  cases hres : resolve r n with
  | ok val => simp [exceptOk]
  | error e => rw [hres] at h2; simp [errOf] at h2

/-- A successful tagged-enum encoding starts with the variant's position
in the declared mapping order, whatever the fuel. -/
theorem taggedEncodeFrom_discriminant (tag : String) (pv : Value) :
    ∀ (ps : List (String × ResolvedType)) (fuel k : Nat) (bs : List Nat),
      taggedEncodeFrom fuel k ps tag pv = .ok bs →
      ∃ j rest, variantIndexFrom k ps tag = some j ∧ bs = j :: rest := by
  intro ps
  induction ps with
  | nil =>
    intro fuel k bs h
    cases fuel with
    | zero => simp [taggedEncodeFrom] at h
    | succ f => simp [taggedEncodeFrom] at h
  | cons p ps1 ih =>
    intro fuel k bs h
    obtain ⟨n, pt⟩ := p
    cases fuel with
    | zero => simp [taggedEncodeFrom] at h
    | succ f =>
      rw [taggedEncodeFrom] at h
      by_cases hn : (n == tag) = true
      · rw [if_pos hn] at h
        cases henc : encodeAt f pt pv with
        | ok pb =>
          rw [henc] at h
          simp at h
          exact ⟨k, pb, by simp [variantIndexFrom, hn], h.symm⟩
        | error e => rw [henc] at h; simp at h
      · rw [if_neg hn] at h
        obtain ⟨j, rest, hj, hbs⟩ := ih f (k + 1) bs h
        exact ⟨j, rest, by simp [variantIndexFrom, hn, hj], hbs⟩

/-- Lexicographic comparison of character lists by code point. -/
def charListLt : List Char → List Char → Bool
  | [], [] => false
  | [], _ :: _ => true
  | _ :: _, [] => false
  | a :: as, b :: bs =>
    if a.toNat < b.toNat then true
    else if a.toNat == b.toNat then charListLt as bs else false

/-- Lexicographic string order by code point, used only to compare the
declaration order of enum variants against lexical order. -/
def strLt (a b : String) : Bool := charListLt a.data b.data

/-! ### Claims -/

/-- C1: for the schema exported by src/index.js (every type in `types`
and the parameter/return types of `getProtos`), every named type
reference resolves, directly or transitively, to a primitive or a
fully-defined composite with no dangling reference and no cycle, so
`validate()` on a registry built from this schema returns an empty error
list. -/
theorem c1_schema_validates_clean : validate protosRegistry = [] := by decide

/-- C2: for the `getProtos` method as declared in the schema (required
`params` of type GetProtosParams, optional `at` of type BlockHash),
`checkArgs` succeeds on one well-shaped argument and on two, and fails
with `ArityMismatch` on zero arguments. -/
theorem c2_getProtos_arity :
    checkArgs protosRegistry "getProtos" [pVal] = []
    ∧ checkArgs protosRegistry "getProtos" [pVal, blockHashVal] = []
    ∧ checkArgs protosRegistry "getProtos" [] = [.ArityMismatch "getProtos" 0 1 2] :=
  ⟨by decide, by decide, by decide⟩

/-- C3 counterexample: in `mixedRegistry` the registered name `A`
transitively references the unregistered `X` (so by the claim resolution
should fail with `UnknownType`), yet `resolve("A")` fails with
`CyclicType` because `A`'s first field reaches the cycle `C -> C`; the
claimed "exactly when" biconditional is therefore false when both defects
are present. -/
theorem c3_counterexample :
    (lookupType mixedRegistry "A").isSome = true
    ∧ dangling mixedRegistry "A"
    ∧ resolve mixedRegistry "A" = .error (.CyclicType "C")
    ∧ ¬ ∃ m, resolve mixedRegistry "A" = .error (.UnknownType m) := by
  refine ⟨by decide,
    ⟨"X", Reaches.step (by decide) (Reaches.refl "X"), by decide⟩, by rfl, ?_⟩
  rintro ⟨m, hm⟩
  rw [show resolve mixedRegistry "A" = .error (.CyclicType "C") from rfl] at hm
  exact RegErr.noConfusion (Except.error.inj hm)

/-- C3 (amended): for every plain type name (in a well-formed registry
where noted), failing with `UnknownType` implies the name transitively
references an unregistered name; failing with `CyclicType` implies a
reachable name lies on a genuine nonempty dependency cycle; when a
dangling reference is the only defect the failure is `UnknownType`, and
when a cycle is the only defect the failure is `CyclicType` (when both
defects are present the resolver reports whichever it encounters first);
resolution succeeds exactly when neither defect exists; in particular
the chain `A -> B -> A` fails with `CyclicType` on `"A"`, and the
unregistered reference `"X"` fails with `UnknownType`. -/
theorem c3_resolve_error_characterization :
    (∀ (r : Registry) (n : String), wfReg r = true → parseTypeRef n = some (.named n) →
        (∃ m, resolve r n = .error (.UnknownType m)) → dangling r n)
    ∧ (∀ (r : Registry) (n : String), parseTypeRef n = some (.named n) →
        (∃ m, resolve r n = .error (.CyclicType m)) → cyclicFrom r n)
    ∧ (∀ (r : Registry) (n : String), parseTypeRef n = some (.named n) →
        dangling r n → ¬ cyclicFrom r n → ∃ m, resolve r n = .error (.UnknownType m))
    ∧ (∀ (r : Registry) (n : String), wfReg r = true → parseTypeRef n = some (.named n) →
        cyclicFrom r n → ¬ dangling r n → ∃ m, resolve r n = .error (.CyclicType m))
    ∧ (∀ (r : Registry) (n : String), wfReg r = true → parseTypeRef n = some (.named n) →
        ((∃ res, resolve r n = .ok res) ↔ ¬ dangling r n ∧ ¬ cyclicFrom r n))
    ∧ resolve cyclicRegistry "A" = .error (.CyclicType "A")
    ∧ resolve emptyRegistry "X" = .error (.UnknownType "X") := by
  have hfuel : ∀ r : Registry, unvisitedCount r [] + 1 ≤ initialFuel r := by
    intro r
    rw [unvisitedCount_nil]
    exact Nat.le_refl _
  refine ⟨?_, ?_, ?_, ?_, ?_, by rfl, by rfl⟩
  · rintro r n hw hp ⟨m, he⟩
    rw [resolve_eq_resolveName r n hp] at he
    obtain ⟨hnone, hre⟩ := resolveName_unknown_sound r hw (initialFuel r) [] n m he
    exact ⟨m, hre, hnone⟩
  · rintro r n hp ⟨m, he⟩
    rw [resolve_eq_resolveName r n hp] at he
    obtain ⟨hre, hcyc⟩ := resolveName_cyclic_sound r (initialFuel r) [] n m he
        (fun v hv => absurd hv (List.not_mem_nil v))
    exact ⟨m, hre, hcyc⟩
  · intro r n hp hd hnc
    cases hres : resolve r n with
    | ok res =>
      exfalso
      rw [resolve_eq_resolveName r n hp] at hres
      obtain ⟨m, hm, hnone⟩ := hd
      have h1 := (resolveName_ok_sound r (initialFuel r) [] n res hres m hm).1
      rw [hnone] at h1
      simp at h1
    | error e =>
      rw [resolve_eq_resolveName r n hp] at hres
      rcases resolveName_error_kinds r (initialFuel r) [] n e hres with
        ⟨m, rfl⟩ | ⟨m, rfl⟩ | rfl
      · exact ⟨m, rfl⟩
      · exfalso
        obtain ⟨hre, hcyc⟩ := resolveName_cyclic_sound r (initialFuel r) [] n m hres
            (fun v hv => absurd hv (List.not_mem_nil v))
        exact hnc ⟨m, hre, hcyc⟩
      · exact absurd hres (resolveName_no_exhaustion r (initialFuel r) [] n (hfuel r))
  · intro r n hw hp hc hnd
    cases hres : resolve r n with
    | ok res =>
      exfalso
      rw [resolve_eq_resolveName r n hp] at hres
      obtain ⟨m, hm, hcyc⟩ := hc
      exact (resolveName_ok_sound r (initialFuel r) [] n res hres m hm).2.2 hcyc
    | error e =>
      rw [resolve_eq_resolveName r n hp] at hres
      rcases resolveName_error_kinds r (initialFuel r) [] n e hres with
        ⟨m, rfl⟩ | ⟨m, rfl⟩ | rfl
      · exfalso
        obtain ⟨hnone, hre⟩ := resolveName_unknown_sound r hw (initialFuel r) [] n m hres
        exact hnd ⟨m, hre, hnone⟩
      · exact ⟨m, rfl⟩
      · exact absurd hres (resolveName_no_exhaustion r (initialFuel r) [] n (hfuel r))
  · intro r n hw hp
    constructor
    · rintro ⟨res, hres⟩
      rw [resolve_eq_resolveName r n hp] at hres
      have hall := resolveName_ok_sound r (initialFuel r) [] n res hres
      constructor
      · rintro ⟨m, hm, hnone⟩
        have h1 := (hall m hm).1
        rw [hnone] at h1
        simp at h1
      · rintro ⟨m, hm, hcyc⟩
        exact (hall m hm).2.2 hcyc
    · rintro ⟨hnd, hnc⟩
      cases hres : resolve r n with
      | ok res => exact ⟨res, rfl⟩
      | error e =>
        exfalso
        rw [resolve_eq_resolveName r n hp] at hres
        rcases resolveName_error_kinds r (initialFuel r) [] n e hres with
          ⟨m, rfl⟩ | ⟨m, rfl⟩ | rfl
        · obtain ⟨hnone, hre⟩ := resolveName_unknown_sound r hw (initialFuel r) [] n m hres
          exact hnd ⟨m, hre, hnone⟩
        · obtain ⟨hre, hcyc⟩ := resolveName_cyclic_sound r (initialFuel r) [] n m hres
              (fun v hv => absurd hv (List.not_mem_nil v))
          exact hnc ⟨m, hre, hcyc⟩
        · exact (resolveName_no_exhaustion r (initialFuel r) [] n (hfuel r)) hres

theorem c3_resolve_error_characterization_witness :
    dangling danglingRegistry "A" ∧ cyclicFrom cyclicRegistry "A" :=
  ⟨c3_resolve_error_characterization.1 danglingRegistry "A" (by decide) rfl ⟨"X", by rfl⟩,
   c3_resolve_error_characterization.2.1 cyclicRegistry "A" rfl ⟨"A", by rfl⟩⟩

/-- C4: `define(name, definition)` fails (and fails with `DuplicateType`)
exactly when `name` is already registered with a conflicting definition;
re-registering an identical definition is a no-op leaving the registry
unchanged; and registering the exported schema, in which `ShardsFormat`
appears twice with identical variant lists, succeeds and yields the
exported registry. -/
theorem c4_define_duplicate_iff :
    (∀ (r : Registry) (n : String) (d : TypeDef),
        (∃ e, define r n d = .error e) ↔ ∃ d0, lookupType r n = some d0 ∧ d0 ≠ d)
    ∧ (∀ (r : Registry) (n : String) (d d0 : TypeDef),
        lookupType r n = some d0 → d0 ≠ d → define r n d = .error (.DuplicateType n))
    ∧ (∀ (r : Registry) (n : String) (d : TypeDef),
        lookupType r n = some d → define r n d = .ok r)
    ∧ defineAll { types := [], methods := protosMethods } schemaSrcTypes
        = .ok protosRegistry := by
  refine ⟨?_, ?_, ?_, by decide⟩
  · intro r n d
    constructor
    · rintro ⟨e, he⟩
      unfold define at he
      cases hl : lookupType r n with
      | none => rw [hl] at he; simp at he
      | some d0 =>
        rw [hl] at he
        dsimp only at he
        by_cases hd : d0 = d
        · rw [if_pos hd] at he; simp at he
        · exact ⟨d0, rfl, hd⟩
    · rintro ⟨d0, hl, hd⟩
      refine ⟨.DuplicateType n, ?_⟩
      unfold define
      rw [hl]
      dsimp only
      rw [if_neg hd]
  · intro r n d d0 hl hd
    unfold define
    rw [hl]
    dsimp only
    rw [if_neg hd]
  · intro r n d hl
    unfold define
    rw [hl]
    dsimp only
    rw [if_pos rfl]

theorem c4_define_duplicate_iff_witness :
    define protosRegistry "ShardsFormat" (.enumSimple ["edn", "binary"]) = .ok protosRegistry :=
  c4_define_duplicate_iff.2.2.1 protosRegistry "ShardsFormat"
    (.enumSimple ["edn", "binary"]) (by decide)

/-- C5 counterexample: the claim quantifies over every name registered
via `define`, but registering the chain `A -> B -> A` goes through
`define` and `resolve("A")` then fails with `CyclicType`, so `resolve`
does not succeed on every registered name. -/
theorem c5_counterexample :
    defineAll emptyRegistry [("A", .alias "B"), ("B", .alias "A")] = .ok cyclicRegistry
    ∧ exceptOk (resolve cyclicRegistry "A") = false :=
  ⟨rfl, rfl⟩

/-- C5 (amended): for every type name registered via `define` in a
registry whose `validate()` returns the empty list, `resolve` succeeds;
and `resolve` is idempotent — calling it twice on the same name returns
structurally equal results. -/
theorem c5_resolve_total_on_valid :
    (∀ (r : Registry) (n : String) (d : TypeDef),
        validate r = [] → (n, d) ∈ r.types → exceptOk (resolve r n) = true)
    ∧ ∀ (r : Registry) (n : String), resolve r n = resolve r n :=
  ⟨fun r n d hv hm => resolve_ok_of_validate_nil r n d hv hm, fun _ _ => rfl⟩

theorem c5_resolve_total_on_valid_witness :
    exceptOk (resolve protosRegistry "BlockHash") = true :=
  c5_resolve_total_on_valid.1 protosRegistry "BlockHash" (.alias "Hash")
    (by decide) (by decide)

/-- C6: for every simple enum with N variants, encoding any variant index
`i < N` and then decoding yields the original index and the original
variant name, while encoding the out-of-range index N fails with
`ShapeMismatch`. -/
theorem c6_simple_enum_roundtrip :
    (∀ (vs : List String) (i : Nat) (h : i < vs.length),
        encodeSimpleEnum vs i = .ok [i]
        ∧ decodeSimpleEnum vs [i] = .ok (i, vs.get ⟨i, h⟩))
    ∧ ∀ vs : List String, encodeSimpleEnum vs vs.length = .error .ShapeMismatch := by
  constructor
  · intro vs i h
    constructor
    · unfold encodeSimpleEnum
      rw [if_pos h]
    · unfold decodeSimpleEnum
      dsimp only
      rw [List.get?_eq_get h]
  · intro vs
    unfold encodeSimpleEnum
    rw [if_neg (lt_irrefl _)]

theorem c6_simple_enum_roundtrip_witness :
    encodeSimpleEnum shardsFormatVariants 1 = .ok [1]
    ∧ decodeSimpleEnum shardsFormatVariants [1] = .ok (1, "binary")
    ∧ encodeSimpleEnum shardsFormatVariants 2 = .error .ShapeMismatch :=
  ⟨(c6_simple_enum_roundtrip.1 shardsFormatVariants 1 (by decide)).1,
   (c6_simple_enum_roundtrip.1 shardsFormatVariants 1 (by decide)).2,
   c6_simple_enum_roundtrip.2 shardsFormatVariants⟩

/-- C7: the variant discriminant used for encoding and decoding a tagged
enum is the variant's 0-based position in the declared mapping order (any
successful encoding starts with that position, and decoding indexes the
declared mapping); for the schema's `Categories` enum this assigns text=0,
trait=1, shards=2, audio=3, texture=4, vector=5, video=6, model=7,
binary=8 — not lexical order, under which `audio` would come first. -/
theorem c7_tagged_discriminant_declared_order :
    (∀ (fuel k : Nat) (ps : List (String × ResolvedType)) (tag : String) (pv : Value)
        (bs : List Nat),
        taggedEncodeFrom fuel k ps tag pv = .ok bs →
        ∃ j rest, variantIndexFrom k ps tag = some j ∧ bs = j :: rest)
    ∧ [variantIndex categoriesVariantsSrc "text", variantIndex categoriesVariantsSrc "trait",
       variantIndex categoriesVariantsSrc "shards", variantIndex categoriesVariantsSrc "audio",
       variantIndex categoriesVariantsSrc "texture", variantIndex categoriesVariantsSrc "vector",
       variantIndex categoriesVariantsSrc "video", variantIndex categoriesVariantsSrc "model",
       variantIndex categoriesVariantsSrc "binary"]
        = [some 0, some 1, some 2, some 3, some 4, some 5, some 6, some 7, some 8]
    ∧ decodeTaggedHead categoriesResolved [4] = .ok ("texture", [])
    ∧ (categoriesVariantsSrc.map Prod.fst).all (fun s => s == "audio" || strLt "audio" s)
        = true :=
  ⟨fun fuel k ps tag pv bs h => taggedEncodeFrom_discriminant tag pv ps fuel k bs h,
   by decide, by decide, by decide⟩

theorem c7_tagged_discriminant_declared_order_witness :
    ∃ j rest, variantIndexFrom 0 categoriesResolved "audio" = some j ∧ [3, 0] = j :: rest :=
  c7_tagged_discriminant_declared_order.1 20 0 categoriesResolved "audio" (.vNum 0)
    [3, 0] rfl

/-- C8: struct encoding processes fields strictly in declared order: for
`GetProtosParams`, encoding the same bindings supplied in a permuted
order yields the same bytes (the encoder honors declared order, not input
order), while an encoder that took field order from the input would
produce a different byte sequence, so field order independence of the
wire format does not hold. -/
theorem c8_struct_declared_order :
    encodeStructDeclared gpFieldsResolved pValPermuted
        = encodeStructDeclared gpFieldsResolved pValFields
    ∧ exceptOk (encodeStructDeclared gpFieldsResolved pValFields) = true
    ∧ encodeStructInputOrder gpFieldsResolved pValPermuted
        ≠ encodeStructDeclared gpFieldsResolved pValFields :=
  ⟨by decide, by decide, by decide⟩

/-- C9 counterexample: the schema source contains exactly one definition
of each of `Categories`, `BinaryCategories` and `ShardsTrait` — not two
divergent variants — and its `BinaryCategories` has no `safeTensors`
variant. -/
theorem c9_counterexample :
    (schemaSrcTypes.filter (fun p => p.1 == "Categories")).length = 1
    ∧ (schemaSrcTypes.filter (fun p => p.1 == "BinaryCategories")).length = 1
    ∧ (schemaSrcTypes.filter (fun p => p.1 == "ShardsTrait")).length = 1
    ∧ binaryCategoriesVariants.contains "safeTensors" = false :=
  ⟨by decide, by decide, by decide, by decide⟩

/-- C9 (amended): the schema material contains a single schema variant of
`Categories`/`BinaryCategories`/`ShardsTrait`, which simultaneously has
`onnxModel` (but no `safeTensors`), `ShardsScriptInfo`, and
`exclude_tags`; no second divergent variant of those types exists in the
source. -/
theorem c9_single_schema_variant :
    binaryCategoriesVariants.contains "onnxModel" = true
    ∧ binaryCategoriesVariants.contains "safeTensors" = false
    ∧ (lookupType protosRegistry "ShardsScriptInfo").isSome = true
    ∧ (gpFieldsSrc.map Prod.fst).contains "exclude_tags" = true
    ∧ (schemaSrcTypes.filter (fun p => p.1 == "Categories")).length = 1
    ∧ (schemaSrcTypes.filter (fun p => p.1 == "BinaryCategories")).length = 1
    ∧ (schemaSrcTypes.filter (fun p => p.1 == "ShardsTrait")).length = 1 :=
  ⟨by decide, by decide, by decide, by decide, by decide, by decide, by decide⟩

/-- C10: the source text of the `types` object literal contains two
`ShardsFormat` entries, both equal to the simple enum with variants
`edn` then `binary`; under JavaScript object-literal semantics the
exported `types` mapping contains exactly one `ShardsFormat` entry equal
to that definition, so a consumer observes no duplicate or conflicting
type. -/
theorem c10_shardsFormat_duplicate_identical :
    schemaSrcTypes.filter (fun p => p.1 == "ShardsFormat")
        = [("ShardsFormat", .enumSimple ["edn", "binary"]),
           ("ShardsFormat", .enumSimple ["edn", "binary"])]
    ∧ (exportedTypes.filter (fun p => p.1 == "ShardsFormat")).length = 1
    ∧ lookupType protosRegistry "ShardsFormat" = some (.enumSimple ["edn", "binary"]) :=
  ⟨by decide, by decide, by decide⟩

end Protos
